import Mathlib

/-!
Shallow embedding of the event dispatcher of `src/twitch/dispatcher.go`
(the in-process event bus of the kabukibot chat bot).

Modelling decisions, all derived from the Go source:

* `Listener.dispatcher` (a pointer that is either the owning dispatcher or
  `nil`) is modelled by the boolean field `owner`: all claims concern a single
  dispatcher instance, so what matters is only whether the pointer is set.
* The opaque callback value (`listenerFunc`, an `interface{}`) is modelled by a
  `Nat` identity; the dispatcher never inspects callbacks, it only stores and
  hands them to a visitor.
* The Go map `listenerMap` is modelled by an association list with
  lookup/update operations; the code uses only per-key lookup and update, which
  the association list reproduces exactly.
* A `walker` visitor closure is modelled by a `Nat` payload identity together
  with a behaviour function `behav : Nat → Nat → List triggerQueueItem` giving,
  for a callback and a payload, the list of nested `TriggerEvent` requests the
  callback raises when invoked.  During a drain `d.lock` is `true`, so in the
  Go code every nested `TriggerEvent` call performed by a callback does exactly
  one thing: append its request to `d.triggerQueue` and return.  The drain
  below inlines that (`runCallbacks` appends `behav cb payload` to the queue),
  which is faithful as long as callbacks only trigger events (they do not add
  or remove listeners mid-drain; those operations are analysed separately).
* The Go drain loop `for len(d.triggerQueue) > 0 { ... }` may not terminate
  (a callback can re-trigger forever), so the drain takes explicit fuel and
  returns `none` when the fuel runs out.
* Queue items additionally carry a ghost `Nat` raise-tag, assigned in the
  order requests are appended (raised); it does not influence control flow and
  exists only to state the FIFO delivery property.
* Go `int` is modelled by `Int` (the id counter starts at 0 and is only ever
  incremented, so overflow is out of scope exactly as in the spec).
-/

namespace Twitch

/-- A chat channel; only its `Name` is used to build scoped event keys. -/
structure Channel where
  Name : String
deriving DecidableEq, Repr

/-- The listener record from `dispatcher.go`: `owner` models the
`dispatcher *dispatcher` back-pointer (`true` = set, `false` = `nil`),
`callback` the opaque `listenerFunc`, `event` the full event key,
`id` the identity assigned at registration. -/
structure Listener where
  owner    : Bool
  callback : Nat
  event    : String
  id       : Int
deriving DecidableEq, Repr

/-- `func (l *Listener) Equals(m *Listener) bool { return l.id == m.id }` -/
def Listener.Equals (l m : Listener) : Bool :=
  l.id == m.id

/-- The Go `listenerMap` (`map[string][]Listener`), as an association list. -/
abbrev listenerMap := List (String × List Listener)

/-- Map lookup: `list, exists := m[k]`. -/
def mapLookup (m : listenerMap) (k : String) : Option (List Listener) :=
  match m with
  | [] => none
  | (k', v) :: rest => if k' = k then some v else mapLookup rest k

/-- Map update: `m[k] = v` (overwrites the entry for `k`, or appends one). -/
def mapSet (m : listenerMap) (k : String) (v : List Listener) : listenerMap :=
  match m with
  | [] => [(k, v)]
  | (k', v') :: rest =>
      if k' = k then (k, v) :: rest else (k', v') :: mapSet rest k v

/-- A pending trigger request (`triggerQueueItem`): event name, optional
channel scope, and the payload identity standing for the `walker` visitor.
The raise-tag ghost data is attached separately in the queue. -/
structure triggerQueueItem where
  event   : String
  channel : Option Channel
  payload : Nat
deriving DecidableEq, Repr

/-- The dispatcher state from `dispatcher.go`. -/
structure dispatcher where
  listeners    : listenerMap
  listenerID   : Int
  lock         : Bool
  triggerQueue : List triggerQueueItem
deriving DecidableEq, Repr

/-- `NewDispatcher`: empty registry, id counter 0, unlocked, empty queue. -/
def NewDispatcher : dispatcher :=
  ⟨[], 0, false, []⟩

/-- The full event key: `event` or `event ++ "#" ++ c.Name`. -/
def fullKey (event : String) (c : Option Channel) : String :=
  match c with
  | none => event
  | some ch => event ++ "#" ++ ch.Name

/-- The duplicate scan in `AddListener`: first already-registered listener
`i` in `list` with `i.Equals(listener)`. -/
def findEqual (list : List Listener) (listener : Listener) : Option Listener :=
  match list with
  | [] => none
  | i :: rest => if i.Equals listener then some i else findEqual rest listener

/-- `dispatcher.AddListener`: build the listener with the current id, look up
the key's list, scan for a duplicate (returning the existing entry if found),
otherwise append and increment the id counter.  Returns the new state and the
returned listener. -/
def AddListener (d : dispatcher) (event : String) (c : Option Channel)
    (f : Nat) : dispatcher × Listener :=
  let fullEventName := fullKey event c
  let listener : Listener := ⟨true, f, fullEventName, d.listenerID⟩
  match mapLookup d.listeners fullEventName with
  | none =>
      ({ d with
          listeners  := mapSet d.listeners fullEventName ([] ++ [listener]),
          listenerID := d.listenerID + 1 }, listener)
  | some list =>
      match findEqual list listener with
      | some i => (d, i)
      | none =>
          ({ d with
              listeners  := mapSet d.listeners fullEventName (list ++ [listener]),
              listenerID := d.listenerID + 1 }, listener)

/-- The position scan in `Listener.Remove`: index of the first entry of
`list` that `self.Equals`; `none` models `pos == -1`. -/
def findPos (list : List Listener) (self : Listener) : Option Nat :=
  match list with
  | [] => none
  | x :: rest =>
      if self.Equals x then some 0
      else (findPos rest self).map (· + 1)

/-- `append(list[:pos], list[(pos+1):]...)`. -/
def removeAt (list : List Listener) (pos : Nat) : List Listener :=
  list.take pos ++ list.drop (pos + 1)

/-- `Listener.Remove`: no-op if the back-pointer is already cleared; if the
event key is absent, clear the back-pointer and stop; otherwise scan for the
first entry with the same id and, when found, splice it out and clear the
back-pointer (when not found, nothing changes).  Returns the updated handle
and dispatcher. -/
def Listener.Remove (self : Listener) (d : dispatcher) :
    Listener × dispatcher :=
  if self.owner = false then (self, d)
  else
    match mapLookup d.listeners self.event with
    | none => ({ self with owner := false }, d)
    | some list =>
        match findPos list self with
        | none => (self, d)
        | some pos =>
            ({ self with owner := false },
             { d with listeners :=
                mapSet d.listeners self.event (removeAt list pos) })

/-- One recorded callback invocation: the key under which the listener was
found, the listener's callback, and the payload it was invoked with. -/
structure Invocation where
  key      : String
  callback : Nat
  payload  : Nat
deriving DecidableEq, Repr

/-- Behaviour of callbacks: `behav cb payload` is the list of nested
`TriggerEvent` requests the callback `cb` raises when a visitor carrying
`payload` invokes it. -/
abbrev Behaviour := Nat → Nat → List triggerQueueItem

/-- Attach consecutive raise-tags `next, next+1, …` to newly raised
requests. -/
def tagAll (reqs : List triggerQueueItem) (next : Nat) :
    List (triggerQueueItem × Nat) :=
  match reqs with
  | [] => []
  | r :: rest => (r, next) :: tagAll rest (next + 1)

/-- The loop body of `runListeners`: invoke each listener of the list via the
visitor.  Each invocation is recorded, and the nested requests it raises are
appended to the queue with fresh raise-tags (this is what the reentrant
`TriggerEvent` calls do while `lock` is true).  Returns the grown queue, the
next raise-tag, and the invocation trace. -/
def runCallbacks (behav : Behaviour) (payload : Nat) (key : String) :
    List Listener → List (triggerQueueItem × Nat) → Nat →
    List (triggerQueueItem × Nat) × Nat × List Invocation
  | [], q, next => (q, next, [])
  | x :: rest, q, next =>
      let nested := behav x.callback payload
      let out := runCallbacks behav payload key rest
        (q ++ tagAll nested next) (next + nested.length)
      (out.1, out.2.1, ⟨key, x.callback, payload⟩ :: out.2.2)

/-- `dispatcher.runListeners`: look up the key; absent means no invocation at
all, otherwise run every listener of the list in order. -/
def runListeners (behav : Behaviour) (m : listenerMap) (key : String)
    (payload : Nat) (q : List (triggerQueueItem × Nat)) (next : Nat) :
    List (triggerQueueItem × Nat) × Nat × List Invocation :=
  match mapLookup m key with
  | none => (q, next, [])
  | some l => runCallbacks behav payload key l q next

/-- Result of a drain: invocation trace, delivered requests with their
raise-tags in delivery order, leftover queue, and final raise-tag counter. -/
structure DrainOut where
  trace     : List Invocation
  delivered : List (triggerQueueItem × Nat)
  finalQ    : List (triggerQueueItem × Nat)
  finalNext : Nat
deriving DecidableEq, Repr

/-- The drain loop of `TriggerEvent` (`for len(d.triggerQueue) > 0`): pop the
front request, run the plain-key listeners, then — when a channel scope is
present — the channel-key listeners, and continue on the (possibly grown)
queue.  Explicit fuel; `none` models a drain that does not finish within the
fuel. -/
def drain (behav : Behaviour) :
    Nat → listenerMap → List (triggerQueueItem × Nat) → Nat → Option DrainOut
  | 0, _, _, _ => none
  | _ + 1, _, [], next => some ⟨[], [], [], next⟩
  | fuel + 1, m, (item, tag) :: rest, next =>
      let r1 := runListeners behav m item.event item.payload rest next
      let r2 :=
        match item.channel with
        | none => (r1.1, r1.2.1, ([] : List Invocation))
        | some c =>
            runListeners behav m (item.event ++ "#" ++ c.Name) item.payload
              r1.1 r1.2.1
      match drain behav fuel m r2.1 r2.2.1 with
      | none => none
      | some out =>
          some ⟨r1.2.2 ++ r2.2.2 ++ out.trace,
                (item, tag) :: out.delivered, out.finalQ, out.finalNext⟩

/-- `dispatcher.TriggerEvent`: append the request to the queue; if the lock is
held, return at once (the active drain will serve it); otherwise take the
lock, drain the queue, release the lock.  Returns the final dispatcher, the
invocation trace and the delivered requests (with raise-tags, the queue items
being tagged `0, 1, …` in raise order). -/
def TriggerEvent (behav : Behaviour) (fuel : Nat) (d : dispatcher)
    (event : String) (c : Option Channel) (payload : Nat) :
    Option (dispatcher × List Invocation × List (triggerQueueItem × Nat)) :=
  let q := d.triggerQueue ++ [⟨event, c, payload⟩]
  if d.lock then
    some ({ d with triggerQueue := q }, [], [])
  else
    match drain behav fuel d.listeners (tagAll q 0) q.length with
    | none => none
    | some out =>
        some ({ d with triggerQueue := out.finalQ.map Prod.fst, lock := false },
              out.trace, out.delivered)

/-! ### Concrete fixtures (used by witness theorems)

A small dispatcher built the way `AddListener` builds it: a global listener
`G` (callback 10) on `"JOIN"`, a scoped listener `S` (callback 20) on
`"JOIN#foo"`, and — in the extended fixture — a listener (callback 30) on
`"B"`.  `wBehav` makes callback 10 re-trigger event `"B"` from inside its own
delivery. -/

def wListG : Listener := ⟨true, 10, "JOIN", 0⟩

def wListS : Listener := ⟨true, 20, "JOIN#foo", 1⟩

def wListB : Listener := ⟨true, 30, "B", 2⟩

def wDisp : dispatcher :=
  ⟨[("JOIN", [wListG]), ("JOIN#foo", [wListS])], 2, false, []⟩

def wDisp3 : dispatcher :=
  ⟨[("JOIN", [wListG]), ("JOIN#foo", [wListS]), ("B", [wListB])], 3, false, []⟩

def wGhost : Listener := ⟨true, 0, "JOIN", 42⟩

def wGhost2 : Listener := ⟨true, 0, "NOPE", 42⟩

def wBehav : Behaviour := fun cb _ => if cb == 10 then [⟨"B", none, 7⟩] else []

/-- The fixture dispatcher mid-drain: its lock is held. -/
def wDispBusy : dispatcher :=
  ⟨[("JOIN", [wListG]), ("JOIN#foo", [wListS]), ("B", [wListB])], 3, true, []⟩

/-- Expected invocation trace of triggering `"JOIN"` on channel `"foo"`
against `wDisp3` under `wBehav`: G, then S, then — via the nested trigger
raised by G — the listener on `"B"`. -/
def wTr : List Invocation := [⟨"JOIN", 10, 99⟩, ⟨"JOIN#foo", 20, 99⟩, ⟨"B", 30, 7⟩]

/-- Expected delivered requests (with raise-tags) of the same trigger. -/
def wDel : List (triggerQueueItem × Nat) :=
  [(⟨"JOIN", some ⟨"foo"⟩, 99⟩, 0), (⟨"B", none, 7⟩, 1)]

/-! ### Derived notions used in the statements -/

/-- The invocation trace a single key contributes: one invocation per
listener stored under the key, in list order; empty when the key is absent
(or its list is empty). -/
def keyTrace (m : listenerMap) (key : String) (payload : Nat) :
    List Invocation :=
  ((mapLookup m key).getD []).map fun x => ⟨key, x.callback, payload⟩

/-- Every registered listener's id lies strictly below the id counter.  This
is the invariant that makes the duplicate scan in `AddListener` dead code. -/
def idsBelow (d : dispatcher) : Prop :=
  ∀ k list, mapLookup d.listeners k = some list → ∀ x ∈ list, x.id < d.listenerID

/-- Dispatcher states reachable from `NewDispatcher` through the public
API (registration, removal, triggering). -/
inductive Reachable : dispatcher → Prop where
  | init : Reachable NewDispatcher
  | add {d} (e : String) (c : Option Channel) (f : Nat) :
      Reachable d → Reachable (AddListener d e c f).1
  | rem {d} (h : Listener) : Reachable d → Reachable (Listener.Remove h d).2
  | trig {d d' tr del} (behav : Behaviour) (fuel : Nat) (e : String)
      (c : Option Channel) (p : Nat) : Reachable d →
      TriggerEvent behav fuel d e c p = some (d', tr, del) → Reachable d'

/-- One public call in a usage history of a dispatcher. -/
inductive Op where
  | add (e : String) (c : Option Channel) (f : Nat)
  | remove (h : Listener)
  | trigger (behav : Behaviour) (fuel : Nat) (e : String) (c : Option Channel)
      (p : Nat)

/-- Apply one call, returning the new state and — for a registration — the
id of the listener handed back to the caller.  A trigger whose drain exhausts
its fuel is modelled as leaving the state unchanged (either way a drain never
touches the registry or the id counter). -/
def applyOp (d : dispatcher) : Op → dispatcher × Option Int
  | .add e c f => ((AddListener d e c f).1, some (AddListener d e c f).2.id)
  | .remove h => ((Listener.Remove h d).2, none)
  | .trigger behav fuel e c p =>
      match TriggerEvent behav fuel d e c p with
      | some (d', _, _) => (d', none)
      | none => (d, none)

/-- Run a history of calls, collecting the assigned listener ids in
registration order. -/
def runOps (d : dispatcher) : List Op → dispatcher × List Int
  | [] => (d, [])
  | op :: rest =>
      ((runOps (applyOp d op).1 rest).1,
       (applyOp d op).2.toList ++ (runOps (applyOp d op).1 rest).2)

end Twitch

/-! ### Basic lemmas about the registry map -/

namespace Twitch

theorem mapLookup_set (m : listenerMap) (k k' : String) (v : List Listener) :
    mapLookup (mapSet m k v) k' = if k' = k then some v else mapLookup m k' := by
  induction m with
  | nil =>
      by_cases h : k = k'
      · simp [mapSet, mapLookup, h]
      · simp [mapSet, mapLookup, h, Ne.symm h]
  | cons p rest ih =>
      obtain ⟨k₀, v₀⟩ := p
      by_cases h0 : k₀ = k
      · subst h0
        by_cases h : k₀ = k'
        · simp [mapSet, mapLookup, h]
        · simp [mapSet, mapLookup, h, Ne.symm h]
      · by_cases h1 : k₀ = k'
        · subst h1
          simp [mapSet, mapLookup, h0, Ne.symm h0]
        · simp [mapSet, mapLookup, h0, h1, ih]

theorem mapLookup_set_self (m : listenerMap) (k : String) (v : List Listener) :
    mapLookup (mapSet m k v) k = some v := by
  simp [mapLookup_set]

theorem mapLookup_set_other (m : listenerMap) (k k' : String) (v : List Listener)
    (h : k' ≠ k) : mapLookup (mapSet m k v) k' = mapLookup m k' := by
  simp [mapLookup_set, h]

end Twitch

/-! ### Lemmas about `Listener.Remove` -/

namespace Twitch

/-- When some entry of the list carries the handle's id, `findPos` finds the
first such entry and splicing at that position is exactly erasing the first
match. -/
theorem findPos_eraseP (list : List Listener) (self : Listener)
    (hmem : ∃ x ∈ list, x.id = self.id) :
    ∃ pos, findPos list self = some pos ∧
      removeAt list pos = list.eraseP (fun x => self.Equals x) := by
  induction list with
  | nil => simp at hmem
  | cons x rest ih =>
      by_cases hx : self.Equals x
      · refine ⟨0, by simp [findPos, hx], ?_⟩
        simp [removeAt, List.eraseP_cons_of_pos hx]
      · have hmem' : ∃ y ∈ rest, y.id = self.id := by
          obtain ⟨y, hy, hid⟩ := hmem
          rcases List.mem_cons.mp hy with h | h
          · exact absurd (by simp [Listener.Equals, h ▸ hid]) hx
          · exact ⟨y, h, hid⟩
        obtain ⟨pos, hp, he⟩ := ih hmem'
        refine ⟨pos + 1, by simp [findPos, hx, hp], ?_⟩
        have hx' : ¬ (fun x => self.Equals x) x := hx
        simp [removeAt, List.eraseP_cons_of_neg hx', ← he, List.drop_succ_cons,
          List.take_succ_cons]

/-- When no entry of the list carries the handle's id, `findPos` reports no
position (`pos == -1` in the Go code). -/
theorem findPos_none (list : List Listener) (self : Listener)
    (hnone : ∀ x ∈ list, x.id ≠ self.id) : findPos list self = none := by
  induction list with
  | nil => rfl
  | cons x rest ih =>
      have hx : ¬ self.Equals x := by
        simp [Listener.Equals]
        exact fun hh => hnone x (List.mem_cons_self x rest) hh.symm
      simp [findPos, hx, ih fun y hy => hnone y (List.mem_cons_of_mem x hy)]

end Twitch

/-! ### The removal claims -/

namespace Twitch

/-- C5: `Remove()` is idempotent — on every handle and every dispatcher
state, applying `Remove` a second time to what the first call returned
changes nothing: the registry stays exactly as the first call left it and no
error can occur (the operation is total), including when the handle's event
key was never populated. -/
theorem remove_idempotent (h : Listener) (d : dispatcher) :
    Listener.Remove (Listener.Remove h d).1 (Listener.Remove h d).2 =
      Listener.Remove h d := by
  cases how : h.owner with
  | false => simp [Listener.Remove, how]
  | true =>
      cases hl : mapLookup d.listeners h.event with
      | none => simp [Listener.Remove, how, hl]
      | some list =>
          cases hp : findPos list h with
          | none => simp [Listener.Remove, how, hl, hp]
          | some pos => simp [Listener.Remove, how, hl, hp]

/-- C6: on a not-yet-removed handle whose id occurs in its event key's
registry list, `Remove` deletes exactly the first listener with that id
(splice at the found position = erase the first match), preserves the
relative order of the remaining entries (the new list is a sublist of the
old one), and clears the handle's owner back-reference. -/
theorem remove_deletes_first_match (h : Listener) (d : dispatcher)
    (list : List Listener) (hown : h.owner = true)
    (hl : mapLookup d.listeners h.event = some list)
    (hmem : ∃ x ∈ list, x.id = h.id) :
    Listener.Remove h d =
      ({ h with owner := false },
       { d with listeners :=
          mapSet d.listeners h.event (list.eraseP fun x => h.Equals x) }) ∧
    List.Sublist (list.eraseP fun x => h.Equals x) list := by
  obtain ⟨pos, hp, he⟩ := findPos_eraseP list h hmem
  refine ⟨?_, List.eraseP_sublist list⟩
  simp [Listener.Remove, hown, hl, hp, he]

/-- Witness for C6 at a concrete input: removing the fixture listener `G`
from the fixture dispatcher. -/
theorem remove_deletes_first_match_witness :
    Listener.Remove wListG wDisp =
      ({ wListG with owner := false },
       { wDisp with listeners := mapSet wDisp.listeners wListG.event ([wListG].eraseP fun x => wListG.Equals x) }) ∧
    List.Sublist ([wListG].eraseP fun x => wListG.Equals x) [wListG] :=
  remove_deletes_first_match wListG wDisp [wListG] rfl (by decide)
    ⟨wListG, by simp, rfl⟩

/-- C10: on a not-yet-removed handle, when the event key is present but the
id is no longer in that key's list, `Remove` leaves both the registry and
the handle (in particular its owner back-reference) completely unchanged;
when the event key is absent, the registry is untouched but the owner
back-reference is cleared. -/
theorem remove_miss_behaviour (h : Listener) (d : dispatcher)
    (hown : h.owner = true) :
    (∀ list, mapLookup d.listeners h.event = some list →
       (∀ x ∈ list, x.id ≠ h.id) → Listener.Remove h d = (h, d)) ∧
    (mapLookup d.listeners h.event = none →
       Listener.Remove h d = ({ h with owner := false }, d)) := by
  constructor
  · intro list hl hnone
    simp [Listener.Remove, hown, hl, findPos_none list h hnone]
  · intro hl
    simp [Listener.Remove, hown, hl]

/-- Witness for C10 at concrete inputs: a stale handle whose key `"JOIN"`
still exists (owner kept, state unchanged) and one whose key `"NOPE"` was
never populated (owner cleared). -/
theorem remove_miss_behaviour_witness :
    Listener.Remove wGhost wDisp = (wGhost, wDisp) ∧
    Listener.Remove wGhost2 wDisp = ({ wGhost2 with owner := false }, wDisp) :=
  ⟨(remove_miss_behaviour wGhost wDisp rfl).1 [wListG] (by decide) (by decide),
   (remove_miss_behaviour wGhost2 wDisp rfl).2 (by decide)⟩

end Twitch

/-! ### Lemmas about `AddListener`, the id invariant and reachability -/

namespace Twitch

/-- When no entry carries the candidate's id, the duplicate scan finds
nothing. -/
theorem findEqual_none (list : List Listener) (l : Listener)
    (h : ∀ x ∈ list, x.id ≠ l.id) : findEqual list l = none := by
  induction list with
  | nil => rfl
  | cons x rest ih =>
      have hx : ¬ x.Equals l := by
        simp [Listener.Equals]
        exact h x (List.mem_cons_self x rest)
      simp [findEqual, hx, ih fun y hy => h y (List.mem_cons_of_mem x hy)]

/-- Under the id invariant, `AddListener` always takes the append branch:
it registers the freshly built listener at the end of its key's list, bumps
the counter, and returns that fresh listener. -/
theorem AddListener_spec (d : dispatcher) (e : String) (c : Option Channel)
    (f : Nat) (hinv : idsBelow d) :
    AddListener d e c f =
      ({ d with
          listeners := mapSet d.listeners (fullKey e c)
            (((mapLookup d.listeners (fullKey e c)).getD []) ++
              [⟨true, f, fullKey e c, d.listenerID⟩]),
          listenerID := d.listenerID + 1 },
       ⟨true, f, fullKey e c, d.listenerID⟩) := by
  cases hl : mapLookup d.listeners (fullKey e c) with
  | none => simp [AddListener, hl]
  | some list =>
      have hfe : findEqual list ⟨true, f, fullKey e c, d.listenerID⟩ = none :=
        findEqual_none _ _ fun x hx => ne_of_lt (hinv _ _ hl x hx)
      simp [AddListener, hl, hfe]

/-- The empty registry satisfies the id invariant. -/
theorem idsBelow_new : idsBelow NewDispatcher := by
  intro k list hl
  simp [NewDispatcher, mapLookup] at hl

/-- Registration preserves the id invariant. -/
theorem idsBelow_add (d : dispatcher) (e : String) (c : Option Channel)
    (f : Nat) (hinv : idsBelow d) : idsBelow (AddListener d e c f).1 := by
  rw [AddListener_spec d e c f hinv]
  intro k list hl x hx
  show x.id < d.listenerID + 1
  simp only [mapLookup_set] at hl
  by_cases hk : k = fullKey e c
  · rw [if_pos hk] at hl
    injection hl with hl
    subst hl
    rcases List.mem_append.mp hx with h | h
    · cases hlook : mapLookup d.listeners (fullKey e c) with
      | none => rw [hlook] at h; simp at h
      | some l0 =>
          rw [hlook] at h
          simp at h
          have := hinv _ _ hlook x h
          omega
    · simp at h
      subst h
      simp
  · rw [if_neg hk] at hl
    have := hinv _ _ hl x hx
    omega

/-- The successful-splice case of `Remove`, as an equation. -/
theorem Remove_eq_of_findPos (h : Listener) (d : dispatcher)
    (list : List Listener) (pos : Nat) (how : h.owner = true)
    (hl : mapLookup d.listeners h.event = some list)
    (hp : findPos list h = some pos) :
    Listener.Remove h d =
      ({ h with owner := false },
       { d with listeners := mapSet d.listeners h.event (removeAt list pos) }) := by
  simp [Listener.Remove, how, hl, hp]

/-- Removal never changes the id counter. -/
theorem Remove_listenerID (h : Listener) (d : dispatcher) :
    (Listener.Remove h d).2.listenerID = d.listenerID := by
  cases how : h.owner with
  | false => simp [Listener.Remove, how]
  | true =>
      cases hl : mapLookup d.listeners h.event with
      | none => simp [Listener.Remove, how, hl]
      | some list =>
          cases hp : findPos list h with
          | none => simp [Listener.Remove, how, hl, hp]
          | some pos => simp [Listener.Remove, how, hl, hp]

/-- Removal preserves the id invariant (it only ever deletes an entry). -/
theorem idsBelow_remove (h : Listener) (d : dispatcher) (hinv : idsBelow d) :
    idsBelow (Listener.Remove h d).2 := by
  cases how : h.owner with
  | false => simpa [Listener.Remove, how] using hinv
  | true =>
      cases hl : mapLookup d.listeners h.event with
      | none => simpa [Listener.Remove, how, hl] using hinv
      | some list =>
          cases hp : findPos list h with
          | none => simpa [Listener.Remove, how, hl, hp] using hinv
          | some pos =>
              rw [Remove_eq_of_findPos h d list pos how hl hp]
              intro k l hk x hx
              show x.id < d.listenerID
              simp only [mapLookup_set] at hk
              by_cases hke : k = h.event
              · rw [if_pos hke] at hk
                injection hk with hk
                subst hk
                have hx' : x ∈ list := by
                  rcases List.mem_append.mp hx with hxx | hxx
                  · exact List.take_subset _ _ hxx
                  · exact List.drop_subset _ _ hxx
                exact hinv _ _ hl x hx'
              · rw [if_neg hke] at hk
                exact hinv _ _ hk x hx

/-- The invariant only depends on the registry and the counter. -/
theorem idsBelow_of_eq {d d' : dispatcher} (hl : d'.listeners = d.listeners)
    (hi : d'.listenerID = d.listenerID) (hinv : idsBelow d) : idsBelow d' := by
  intro k list hk x hx
  rw [hi]
  exact hinv k list (hl ▸ hk) x hx

/-- A completed trigger changes neither the registry nor the id counter. -/
theorem TriggerEvent_state (behav : Behaviour) (fuel : Nat) (d : dispatcher)
    (e : String) (c : Option Channel) (p : Nat) (d' : dispatcher)
    (tr : List Invocation) (del : List (triggerQueueItem × Nat))
    (hret : TriggerEvent behav fuel d e c p = some (d', tr, del)) :
    d'.listeners = d.listeners ∧ d'.listenerID = d.listenerID := by
  cases hlock : d.lock with
  | true =>
      simp only [TriggerEvent, hlock, if_true, Option.some.injEq,
        Prod.mk.injEq] at hret
      obtain ⟨h1, -, -⟩ := hret
      rw [← h1]
      exact ⟨rfl, rfl⟩
  | false =>
      simp only [TriggerEvent, hlock, Bool.false_eq_true, if_false] at hret
      cases hdr : drain behav fuel d.listeners
          (tagAll (d.triggerQueue ++ [⟨e, c, p⟩]) 0)
          (d.triggerQueue ++ [(⟨e, c, p⟩ : triggerQueueItem)]).length with
      | none => rw [hdr] at hret; simp at hret
      | some out =>
          rw [hdr] at hret
          simp only [Option.some.injEq, Prod.mk.injEq] at hret
          obtain ⟨h1, -, -⟩ := hret
          rw [← h1]
          exact ⟨rfl, rfl⟩

/-- Every reachable state satisfies the id invariant and has a non-negative
counter. -/
theorem reachable_inv {d : dispatcher} (h : Reachable d) :
    idsBelow d ∧ 0 ≤ d.listenerID := by
  induction h with
  | init => exact ⟨idsBelow_new, le_refl 0⟩
  | add e c f _ ih =>
      refine ⟨idsBelow_add _ e c f ih.1, ?_⟩
      rw [AddListener_spec _ e c f ih.1]
      show 0 ≤ _ + 1
      omega
  | rem hdl _ ih =>
      refine ⟨idsBelow_remove hdl _ ih.1, ?_⟩
      rw [Remove_listenerID]
      exact ih.2
  | trig behav fuel e c p hR hT ih =>
      obtain ⟨hl, hi⟩ := TriggerEvent_state _ _ _ _ _ _ _ _ _ hT
      exact ⟨idsBelow_of_eq hl hi ih.1, hi ▸ ih.2⟩

end Twitch

/-! ### The registration claims -/

namespace Twitch

/-- C3: in every reachable state of one dispatcher, the duplicate scan in
`AddListener` never finds a match (the ids already stored are all strictly
below the freshly minted id), so the branch returning an existing listener is
unreachable: every call appends exactly one new listener at the end of its
key's list and returns that fresh listener. -/
theorem addListener_dedup_unreachable {d : dispatcher} (hd : Reachable d)
    (e : String) (c : Option Channel) (f : Nat) :
    (∀ list, mapLookup d.listeners (fullKey e c) = some list →
      findEqual list ⟨true, f, fullKey e c, d.listenerID⟩ = none) ∧
    AddListener d e c f =
      ({ d with
          listeners := mapSet d.listeners (fullKey e c)
            (((mapLookup d.listeners (fullKey e c)).getD []) ++
              [⟨true, f, fullKey e c, d.listenerID⟩]),
          listenerID := d.listenerID + 1 },
       ⟨true, f, fullKey e c, d.listenerID⟩) := by
  have hinv := (reachable_inv hd).1
  refine ⟨?_, AddListener_spec d e c f hinv⟩
  intro list hl
  exact findEqual_none _ _ fun x hx => ne_of_lt (hinv _ _ hl x hx)

/-- Witness for C3 at a concrete input: a second registration under the same
key of the same callback still appends (the fixture state is reached by one
prior registration of callback 10 under `"JOIN"`). -/
theorem addListener_dedup_unreachable_witness :
    (∀ list,
      mapLookup (AddListener NewDispatcher "JOIN" none 10).1.listeners
          (fullKey "JOIN" none) = some list →
      findEqual list
          ⟨true, 10, fullKey "JOIN" none,
            (AddListener NewDispatcher "JOIN" none 10).1.listenerID⟩ = none) ∧
    AddListener (AddListener NewDispatcher "JOIN" none 10).1 "JOIN" none 10 =
      ({ (AddListener NewDispatcher "JOIN" none 10).1 with
          listeners := mapSet (AddListener NewDispatcher "JOIN" none 10).1.listeners (fullKey "JOIN" none) (((mapLookup (AddListener NewDispatcher "JOIN" none 10).1.listeners (fullKey "JOIN" none)).getD []) ++ [⟨true, 10, fullKey "JOIN" none, (AddListener NewDispatcher "JOIN" none 10).1.listenerID⟩]),
          listenerID := (AddListener NewDispatcher "JOIN" none 10).1.listenerID + 1 },
       ⟨true, 10, fullKey "JOIN" none,
         (AddListener NewDispatcher "JOIN" none 10).1.listenerID⟩) :=
  addListener_dedup_unreachable
    (Reachable.add "JOIN" none 10 Reachable.init) "JOIN" none 10

/-- C9: frame effect of `AddListener` on a reachable state — the returned
listener carries the counter's prior value as id, the counter is bumped by
one, the lock and the trigger queue are untouched, the computed key's list
grows by exactly the one new entry at its end, and every other key's list is
unchanged. -/
theorem addListener_frame {d : dispatcher} (hd : Reachable d) (e : String)
    (c : Option Channel) (f : Nat) :
    (AddListener d e c f).2 = ⟨true, f, fullKey e c, d.listenerID⟩ ∧
    (AddListener d e c f).1.listenerID = d.listenerID + 1 ∧
    (AddListener d e c f).1.lock = d.lock ∧
    (AddListener d e c f).1.triggerQueue = d.triggerQueue ∧
    mapLookup (AddListener d e c f).1.listeners (fullKey e c) =
      some (((mapLookup d.listeners (fullKey e c)).getD []) ++
        [⟨true, f, fullKey e c, d.listenerID⟩]) ∧
    ∀ k, k ≠ fullKey e c →
      mapLookup (AddListener d e c f).1.listeners k = mapLookup d.listeners k := by
  rw [AddListener_spec d e c f (reachable_inv hd).1]
  refine ⟨rfl, rfl, rfl, rfl, mapLookup_set_self _ _ _, fun k hk => ?_⟩
  exact mapLookup_set_other _ _ _ _ hk

/-- Witness for C9 at a concrete input: registering callback 20 for
`"JOIN"` scoped to channel `"foo"` on the state reached by one prior
registration. -/
theorem addListener_frame_witness :
    (AddListener (AddListener NewDispatcher "JOIN" none 10).1 "JOIN" (some ⟨"foo"⟩) 20).2 = ⟨true, 20, fullKey "JOIN" (some ⟨"foo"⟩), (AddListener NewDispatcher "JOIN" none 10).1.listenerID⟩ ∧
    (AddListener (AddListener NewDispatcher "JOIN" none 10).1 "JOIN" (some ⟨"foo"⟩) 20).1.listenerID = (AddListener NewDispatcher "JOIN" none 10).1.listenerID + 1 ∧
    (AddListener (AddListener NewDispatcher "JOIN" none 10).1 "JOIN" (some ⟨"foo"⟩) 20).1.lock = (AddListener NewDispatcher "JOIN" none 10).1.lock ∧
    (AddListener (AddListener NewDispatcher "JOIN" none 10).1 "JOIN" (some ⟨"foo"⟩) 20).1.triggerQueue = (AddListener NewDispatcher "JOIN" none 10).1.triggerQueue ∧
    mapLookup (AddListener (AddListener NewDispatcher "JOIN" none 10).1 "JOIN" (some ⟨"foo"⟩) 20).1.listeners (fullKey "JOIN" (some ⟨"foo"⟩)) = some (((mapLookup (AddListener NewDispatcher "JOIN" none 10).1.listeners (fullKey "JOIN" (some ⟨"foo"⟩))).getD []) ++ [⟨true, 20, fullKey "JOIN" (some ⟨"foo"⟩), (AddListener NewDispatcher "JOIN" none 10).1.listenerID⟩]) ∧
    ∀ k, k ≠ fullKey "JOIN" (some ⟨"foo"⟩) →
      mapLookup (AddListener (AddListener NewDispatcher "JOIN" none 10).1 "JOIN" (some ⟨"foo"⟩) 20).1.listeners k = mapLookup (AddListener NewDispatcher "JOIN" none 10).1.listeners k :=
  addListener_frame (Reachable.add "JOIN" none 10 Reachable.init)
    "JOIN" (some ⟨"foo"⟩) 20

/-- Over any usage history starting from an invariant-satisfying state, the
ids handed out are bounded below by the current counter and strictly
increase. -/
theorem runOps_ids {d : dispatcher} (ops : List Op) (hinv : idsBelow d) :
    (∀ i ∈ (runOps d ops).2, d.listenerID ≤ i) ∧
    (runOps d ops).2.Pairwise (· < ·) := by
  induction ops generalizing d with
  | nil => simp [runOps]
  | cons op rest ih =>
      cases op with
      | add e c f =>
          have hspec := AddListener_spec d e c f hinv
          obtain ⟨hub, hpw⟩ := ih (idsBelow_add d e c f hinv)
          have hcnt : (AddListener d e c f).1.listenerID = d.listenerID + 1 := by
            rw [hspec]
          have hid : (AddListener d e c f).2.id = d.listenerID := by
            rw [hspec]
          constructor
          · intro i hi
            simp only [runOps, applyOp, Option.toList_some, List.cons_append,
              List.nil_append, List.mem_cons] at hi
            rcases hi with hi | hi
            · rw [hi, hid]
            · have := hub i hi
              omega
          · simp only [runOps, applyOp, Option.toList_some, List.cons_append,
              List.nil_append]
            refine List.Pairwise.cons (fun i hi => ?_) hpw
            have := hub i hi
            rw [hid]
            omega
      | remove hdl =>
          obtain ⟨hub, hpw⟩ := ih (idsBelow_remove hdl d hinv)
          constructor
          · intro i hi
            simp only [runOps, applyOp, Option.toList_none, List.nil_append] at hi
            have := hub i hi
            rw [Remove_listenerID] at this
            exact this
          · simpa only [runOps, applyOp, Option.toList_none, List.nil_append]
              using hpw
      | trigger behav fuel e c p =>
          cases hT : TriggerEvent behav fuel d e c p with
          | none =>
              obtain ⟨hub, hpw⟩ := ih hinv
              constructor
              · intro i hi
                simp only [runOps, applyOp, hT, Option.toList_none,
                  List.nil_append] at hi
                exact hub i hi
              · simpa only [runOps, applyOp, hT, Option.toList_none,
                  List.nil_append] using hpw
          | some out =>
              obtain ⟨d', tr, del⟩ := out
              obtain ⟨hl, hi'⟩ := TriggerEvent_state _ _ _ _ _ _ _ _ _ hT
              obtain ⟨hub, hpw⟩ := ih (idsBelow_of_eq hl hi' hinv)
              constructor
              · intro i hi
                simp only [runOps, applyOp, hT, Option.toList_none,
                  List.nil_append] at hi
                have := hub i hi
                rw [hi'] at this
                exact this
              · simpa only [runOps, applyOp, hT, Option.toList_none,
                  List.nil_append] using hpw

/-- C4: across every sequence of registrations, removals and triggers on one
dispatcher started at `NewDispatcher`, the ids of the returned listeners are
strictly increasing in registration order, pairwise distinct (hence never
reused), and non-negative. -/
theorem listener_ids_monotone (ops : List Op) :
    (runOps NewDispatcher ops).2.Pairwise (· < ·) ∧
    (runOps NewDispatcher ops).2.Nodup ∧
    ∀ i ∈ (runOps NewDispatcher ops).2, 0 ≤ i := by
  obtain ⟨hub, hpw⟩ := runOps_ids ops idsBelow_new
  exact ⟨hpw, hpw.imp fun h => ne_of_lt h, fun i hi => hub i hi⟩

end Twitch

/-! ### Lemmas about the trigger queue -/

namespace Twitch

theorem tagAll_length (reqs : List triggerQueueItem) (n : Nat) :
    (tagAll reqs n).length = reqs.length := by
  induction reqs generalizing n with
  | nil => rfl
  | cons r rest ih => simp [tagAll, ih]

/-- Raise-tags are handed out consecutively. -/
theorem tagAll_map_snd (reqs : List triggerQueueItem) (n : Nat) :
    (tagAll reqs n).map Prod.snd = List.range' n reqs.length := by
  induction reqs generalizing n with
  | nil => rfl
  | cons r rest ih => simp [tagAll, ih, List.range'_succ]

/-- Callbacks that raise nothing leave the queue and counter alone and
contribute one invocation per listener, in list order. -/
theorem runCallbacks_null (payload : Nat) (key : String) (l : List Listener)
    (q : List (triggerQueueItem × Nat)) (next : Nat) :
    runCallbacks (fun _ _ => []) payload key l q next =
      (q, next, l.map fun x => ⟨key, x.callback, payload⟩) := by
  induction l generalizing q with
  | nil => simp [runCallbacks]
  | cons x rest ih => simp [runCallbacks, tagAll, ih]

/-- `runListeners` under raise-nothing callbacks produces exactly the key's
trace. -/
theorem runListeners_null (m : listenerMap) (key : String) (payload : Nat)
    (q : List (triggerQueueItem × Nat)) (next : Nat) :
    runListeners (fun _ _ => []) m key payload q next =
      (q, next, keyTrace m key payload) := by
  cases hl : mapLookup m key with
  | none => simp [runListeners, hl, keyTrace]
  | some l => simp [runListeners, hl, keyTrace, runCallbacks_null]

/-- A key with no listeners (absent, or an empty list) contributes nothing,
whatever the callbacks would do. -/
theorem runListeners_empty (behav : Behaviour) (m : listenerMap) (key : String)
    (payload : Nat) (q : List (triggerQueueItem × Nat)) (next : Nat)
    (h : (mapLookup m key).getD [] = []) :
    runListeners behav m key payload q next = (q, next, []) := by
  cases hl : mapLookup m key with
  | none => simp [runListeners, hl]
  | some l =>
      rw [hl] at h
      simp at h
      subst h
      simp [runListeners, hl, runCallbacks]

/-- A dispatcher that is unlocked with an empty queue is unchanged by
re-writing those two fields. -/
theorem dispatcher_eta (d : dispatcher) (hlock : d.lock = false)
    (hq : d.triggerQueue = []) :
    ({ d with triggerQueue := [], lock := false } : dispatcher) = d := by
  obtain ⟨ls, li, lk, tq⟩ := d
  simp at hlock hq
  rw [hlock, hq]

/-- Draining a single request under raise-nothing callbacks: the plain key's
listeners run first, then (for a channel-scoped request) the scoped key's
listeners. -/
theorem drain_single_null (m : listenerMap) (item : triggerQueueItem)
    (tag next : Nat) :
    drain (fun _ _ => []) 2 m [(item, tag)] next =
      some ⟨keyTrace m item.event item.payload ++
          (match item.channel with
           | none => []
           | some ch => keyTrace m (item.event ++ "#" ++ ch.Name) item.payload),
        [(item, tag)], [], next⟩ := by
  cases hc : item.channel with
  | none => simp [drain, runListeners_null, hc]
  | some ch => simp [drain, runListeners_null, hc]

end Twitch

namespace Twitch

/-- Invoking a block of listeners preserves the queue-tag invariant: if the
queue holds consecutively tagged requests and the tag counter sits one past
them, the same holds of the grown queue afterwards. -/
theorem runCallbacks_tags (behav : Behaviour) (payload : Nat) (key : String)
    (l : List Listener) :
    ∀ (q : List (triggerQueueItem × Nat)) (next a : Nat),
    q.map Prod.snd = List.range' a q.length → next = a + q.length →
    ((runCallbacks behav payload key l q next).1.map Prod.snd =
        List.range' a (runCallbacks behav payload key l q next).1.length) ∧
    (runCallbacks behav payload key l q next).2.1 =
        a + (runCallbacks behav payload key l q next).1.length := by
  induction l with
  | nil =>
      intro q next a hq hn
      simpa [runCallbacks] using ⟨hq, hn⟩
  | cons x rest ih =>
      intro q next a hq hn
      have hq' : (q ++ tagAll (behav x.callback payload) next).map Prod.snd =
          List.range' a (q ++ tagAll (behav x.callback payload) next).length := by
        rw [List.map_append, tagAll_map_snd, hq, List.length_append,
          tagAll_length, hn,
          Nat.add_comm q.length (behav x.callback payload).length]
        exact List.range'_append_1 a q.length (behav x.callback payload).length
      have hn' : next + (behav x.callback payload).length =
          a + (q ++ tagAll (behav x.callback payload) next).length := by
        rw [List.length_append, tagAll_length]
        omega
      have hstep := ih (q ++ tagAll (behav x.callback payload) next)
        (next + (behav x.callback payload).length) a hq' hn'
      simpa [runCallbacks] using hstep

/-- `runListeners` preserves the queue-tag invariant. -/
theorem runListeners_tags (behav : Behaviour) (m : listenerMap) (key : String)
    (payload : Nat) (q : List (triggerQueueItem × Nat)) (next a : Nat)
    (hq : q.map Prod.snd = List.range' a q.length)
    (hn : next = a + q.length) :
    ((runListeners behav m key payload q next).1.map Prod.snd =
        List.range' a (runListeners behav m key payload q next).1.length) ∧
    (runListeners behav m key payload q next).2.1 =
        a + (runListeners behav m key payload q next).1.length := by
  cases hl : mapLookup m key with
  | none => simpa [runListeners, hl] using ⟨hq, hn⟩
  | some l =>
      have := runCallbacks_tags behav payload key l q next a hq hn
      simpa [runListeners, hl] using this

/-- The central drain invariant: starting from a queue of consecutively
tagged requests (tags `a, a+1, …`) with the tag counter one past them, a
completed drain delivers requests whose tags are exactly `a, a+1, …` in that
order — FIFO in raise order — delivers every raised request (the final
counter equals `a` plus the number of deliveries), and ends with an empty
queue. -/
theorem drain_inv (behav : Behaviour) :
    ∀ (fuel : Nat) (m : listenerMap) (q : List (triggerQueueItem × Nat))
      (next a : Nat) (out : DrainOut),
    q.map Prod.snd = List.range' a q.length → next = a + q.length →
    drain behav fuel m q next = some out →
    out.delivered.map Prod.snd = List.range' a out.delivered.length ∧
    out.finalNext = a + out.delivered.length ∧
    out.finalQ = [] := by
  intro fuel
  induction fuel with
  | zero =>
      intro m q next a out _ _ h
      simp [drain] at h
  | succ fuel ih =>
      intro m q next a out hq hn hdr
      cases q with
      | nil =>
          simp only [drain, Option.some.injEq] at hdr
          rw [← hdr]
          refine ⟨by simp, ?_, rfl⟩
          simpa using hn
      | cons it rest =>
          obtain ⟨item, tag⟩ := it
          have hq' : tag :: rest.map Prod.snd =
              a :: List.range' (a + 1) rest.length := by
            simpa [List.range'_succ] using hq
          injection hq' with htag hrest
          subst tag
          have hn1 : next = (a + 1) + rest.length := by
            simp at hn
            omega
          rcases hR1 : runListeners behav m item.event item.payload rest next
            with ⟨q1, n1, t1⟩
          have h1 := runListeners_tags behav m item.event item.payload rest
            next (a + 1) hrest hn1
          rw [hR1] at h1
          obtain ⟨hq1, hn1'⟩ := h1
          cases hc : item.channel with
          | none =>
              simp only [drain, hc, hR1] at hdr
              cases hrec : drain behav fuel m q1 n1 with
              | none => rw [hrec] at hdr; simp at hdr
              | some o =>
                  rw [hrec] at hdr
                  simp only [Option.some.injEq] at hdr
                  obtain ⟨ha, hb, hcq⟩ := ih m q1 n1 (a + 1) o hq1 hn1' hrec
                  rw [← hdr]
                  refine ⟨?_, ?_, hcq⟩
                  · show ((item, a) :: o.delivered).map Prod.snd =
                      List.range' a ((item, a) :: o.delivered).length
                    simp [ha, List.range'_succ]
                  · show o.finalNext = a + ((item, a) :: o.delivered).length
                    rw [hb]
                    simp
                    omega
          | some ch =>
              rcases hR2 : runListeners behav m
                  (item.event ++ "#" ++ ch.Name) item.payload q1 n1
                with ⟨q2, n2, t2⟩
              have h2 := runListeners_tags behav m
                (item.event ++ "#" ++ ch.Name) item.payload q1 n1 (a + 1)
                hq1 hn1'
              rw [hR2] at h2
              obtain ⟨hq2, hn2'⟩ := h2
              simp only [drain, hc, hR1, hR2] at hdr
              cases hrec : drain behav fuel m q2 n2 with
              | none => rw [hrec] at hdr; simp at hdr
              | some o =>
                  rw [hrec] at hdr
                  simp only [Option.some.injEq] at hdr
                  obtain ⟨ha, hb, hcq⟩ := ih m q2 n2 (a + 1) o hq2 hn2' hrec
                  rw [← hdr]
                  refine ⟨?_, ?_, hcq⟩
                  · show ((item, a) :: o.delivered).map Prod.snd =
                      List.range' a ((item, a) :: o.delivered).length
                    simp [ha, List.range'_succ]
                  · show o.finalNext = a + ((item, a) :: o.delivered).length
                    rw [hb]
                    simp
                    omega

end Twitch

/-! ### The trigger claims -/

namespace Twitch

/-- C1: a `TriggerEvent` call made while a drain holds the lock only appends
its request to the queue and returns at once, delivering nothing; and any
completed top-level drain delivers the requests in exactly the order their
raise-tags were handed out — tags `0, 1, 2, …` consecutively — i.e. FIFO in
the order the (possibly nested) triggers were raised, breadth-first rather
than depth-first. -/
theorem trigger_fifo (behav : Behaviour) (fuel : Nat) (d : dispatcher)
    (e : String) (c : Option Channel) (p : Nat) :
    (d.lock = true →
      TriggerEvent behav fuel d e c p =
        some ({ d with triggerQueue := d.triggerQueue ++ [⟨e, c, p⟩] },
          [], [])) ∧
    (d.lock = false → ∀ d' tr del,
      TriggerEvent behav fuel d e c p = some (d', tr, del) →
      del.map Prod.snd = List.range' 0 del.length) := by
  constructor
  · intro hlock
    simp [TriggerEvent, hlock]
  · intro hlock d' tr del hret
    simp only [TriggerEvent, hlock, Bool.false_eq_true, if_false] at hret
    cases hdr : drain behav fuel d.listeners
        (tagAll (d.triggerQueue ++ [⟨e, c, p⟩]) 0)
        (d.triggerQueue ++ [(⟨e, c, p⟩ : triggerQueueItem)]).length with
    | none => rw [hdr] at hret; simp at hret
    | some out =>
        rw [hdr] at hret
        simp only [Option.some.injEq, Prod.mk.injEq] at hret
        obtain ⟨-, -, hdel⟩ := hret
        rw [← hdel]
        refine (drain_inv behav fuel d.listeners _ _ 0 out ?_ ?_ hdr).1
        · rw [tagAll_map_snd, tagAll_length]
        · rw [tagAll_length]
          omega

/-- Witness for C1 at concrete inputs: a locked fixture dispatcher only
enqueues, and a completed drain over `wDisp3` with a nested re-trigger
delivers tags `[0, 1]` in order. -/
theorem trigger_fifo_witness :
    TriggerEvent wBehav 10 wDispBusy "JOIN" (some ⟨"foo"⟩) 99 =
      some ({ wDispBusy with
          triggerQueue := wDispBusy.triggerQueue ++ [⟨"JOIN", some ⟨"foo"⟩, 99⟩] },
        [], []) ∧
    wDel.map Prod.snd = List.range' 0 wDel.length :=
  ⟨(trigger_fifo wBehav 10 wDispBusy "JOIN" (some ⟨"foo"⟩) 99).1 rfl,
   (trigger_fifo wBehav 10 wDisp3 "JOIN" (some ⟨"foo"⟩) 99).2 rfl
     wDisp3 wTr wDel (by decide)⟩

/-- C2: a single top-level trigger of event `e` with optional channel `c`
(under callbacks that raise nothing further) invokes exactly the plain key's
listeners first, in list (= registration) order, then — if and only if a
channel is given — the `e#channel` key's listeners, in list order; no other
key is consulted, so listeners scoped to a different channel never fire, and
with no channel only the plain-key listeners fire. -/
theorem trigger_scoping (d : dispatcher) (e : String) (c : Option Channel)
    (p : Nat) (hlock : d.lock = false) (hq : d.triggerQueue = []) :
    TriggerEvent (fun _ _ => []) 2 d e c p =
      some (d,
        keyTrace d.listeners e p ++
          (match c with
           | none => []
           | some ch => keyTrace d.listeners (e ++ "#" ++ ch.Name) p),
        [(⟨e, c, p⟩, 0)]) ∧
    ∀ inv ∈ keyTrace d.listeners e p ++
        (match c with
         | none => []
         | some ch => keyTrace d.listeners (e ++ "#" ++ ch.Name) p),
      inv.key = e ∨ inv.key = fullKey e c := by
  constructor
  · have hds := drain_single_null d.listeners ⟨e, c, p⟩ 0 1
    simp only [TriggerEvent, hlock, Bool.false_eq_true, if_false, hq,
      List.nil_append, List.length_cons, List.length_nil, tagAll]
    rw [hds]
    simp [dispatcher_eta d hlock hq]
  · intro inv hinv
    rcases List.mem_append.mp hinv with h | h
    · left
      obtain ⟨x, -, hx⟩ := List.mem_map.mp h
      rw [← hx]
    · right
      cases c with
      | none => simp at h
      | some ch =>
          obtain ⟨x, -, hx⟩ := List.mem_map.mp h
          rw [← hx]
          rfl

/-- Witness for C2 at a concrete input: triggering `"JOIN"` on channel
`"foo"` against the fixture dispatcher fires G then S. -/
theorem trigger_scoping_witness :
    TriggerEvent (fun _ _ => []) 2 wDisp "JOIN" (some ⟨"foo"⟩) 99 =
      some (wDisp,
        keyTrace wDisp.listeners "JOIN" 99 ++
          keyTrace wDisp.listeners ("JOIN" ++ "#" ++ "foo") 99,
        [(⟨"JOIN", some ⟨"foo"⟩, 99⟩, 0)]) ∧
    ∀ inv ∈ keyTrace wDisp.listeners "JOIN" 99 ++
        keyTrace wDisp.listeners ("JOIN" ++ "#" ++ "foo") 99,
      inv.key = "JOIN" ∨ inv.key = fullKey "JOIN" (some ⟨"foo"⟩) :=
  trigger_scoping wDisp "JOIN" (some ⟨"foo"⟩) 99 rfl rfl

/-- C7: a top-level trigger of an event whose key(s) have no listeners
invokes no callback and completes normally, returning the dispatcher exactly
as it was (registry, id counter, lock and queue all unchanged). -/
theorem trigger_no_listeners (behav : Behaviour) (d : dispatcher)
    (e : String) (c : Option Channel) (p : Nat) (hlock : d.lock = false)
    (hq : d.triggerQueue = [])
    (hplain : (mapLookup d.listeners e).getD [] = [])
    (hscope : ∀ ch, c = some ch →
      (mapLookup d.listeners (e ++ "#" ++ ch.Name)).getD [] = []) :
    TriggerEvent behav 2 d e c p = some (d, [], [(⟨e, c, p⟩, 0)]) := by
  simp only [TriggerEvent, hlock, Bool.false_eq_true, if_false, hq,
    List.nil_append, List.length_cons, List.length_nil, tagAll]
  cases c with
  | none =>
      simp [drain, runListeners_empty behav d.listeners e p _ _ hplain,
        dispatcher_eta d hlock hq]
  | some ch =>
      simp [drain, runListeners_empty behav d.listeners e p _ _ hplain,
        runListeners_empty behav d.listeners (e ++ "#" ++ ch.Name) p _ _
          (hscope ch rfl),
        dispatcher_eta d hlock hq]

/-- Witness for C7 at a concrete input: triggering `"PART"` on a fresh
dispatcher with no listeners at all. -/
theorem trigger_no_listeners_witness :
    TriggerEvent wBehav 2 NewDispatcher "PART" (some ⟨"foo"⟩) 5 =
      some (NewDispatcher, [], [(⟨"PART", some ⟨"foo"⟩, 5⟩, 0)]) :=
  trigger_no_listeners wBehav NewDispatcher "PART" (some ⟨"foo"⟩) 5 rfl rfl
    rfl (fun _ _ => rfl)

/-- C8: whenever a top-level `TriggerEvent` (one that found the lock free
and started the drain) completes, the trigger queue is empty again and the
lock is released, so a later top-level call starts a fresh drain. -/
theorem trigger_top_level_resets (behav : Behaviour) (fuel : Nat)
    (d : dispatcher) (e : String) (c : Option Channel) (p : Nat)
    (d' : dispatcher) (tr : List Invocation)
    (del : List (triggerQueueItem × Nat)) (hlock : d.lock = false)
    (hret : TriggerEvent behav fuel d e c p = some (d', tr, del)) :
    d'.triggerQueue = [] ∧ d'.lock = false := by
  simp only [TriggerEvent, hlock, Bool.false_eq_true, if_false] at hret
  cases hdr : drain behav fuel d.listeners
      (tagAll (d.triggerQueue ++ [⟨e, c, p⟩]) 0)
      (d.triggerQueue ++ [(⟨e, c, p⟩ : triggerQueueItem)]).length with
  | none => rw [hdr] at hret; simp at hret
  | some out =>
      rw [hdr] at hret
      simp only [Option.some.injEq, Prod.mk.injEq] at hret
      obtain ⟨hd', -, -⟩ := hret
      have hfq : out.finalQ = [] := by
        refine (drain_inv behav fuel d.listeners _ _ 0 out ?_ ?_ hdr).2.2
        · rw [tagAll_map_snd, tagAll_length]
        · rw [tagAll_length]
          omega
      rw [← hd']
      simp [hfq]

/-- Witness for C8 at a concrete input: the completed drain over `wDisp3`
leaves the dispatcher unlocked with an empty queue. -/
theorem trigger_top_level_resets_witness :
    wDisp3.triggerQueue = [] ∧ wDisp3.lock = false :=
  trigger_top_level_resets wBehav 10 wDisp3 "JOIN" (some ⟨"foo"⟩) 99
    wDisp3 wTr wDel rfl (by decide)

end Twitch
